import Mathlib

/-!
Shallow embedding of `src/main.rs` of maysh-rs: a shell-prompt tool that
detects the git operation in progress from marker files in the repository
metadata directory, shortens commit hashes, and renders a prompt segment.

Rust strings are modelled as Lean `String`; the Rust string operations used
by the source (`trim`, `trim_end`, `strip_prefix`, prefix tests) are defined
below over the character list so their semantics are explicit.  Panics
(`unwrap`) are modelled as `Except.error ()`.  Filesystem reads are modelled
by a snapshot structure `GitDir`: a `Bool` per existence check and an
`Option String` per file read (with `none` conflating "not found" and other
read errors, as the source does via `if let Ok(..)`).
-/

deriving instance DecidableEq for Except

namespace Maysh

/-- Prefix test on character lists: `lpre p l` holds when `p` is an initial
segment of `l` (used to model matching a hash prefix against an object id). -/
def lpre : List Char → List Char → Bool
  | [], _ => true
  | _ :: _, [] => false
  | a :: as, b :: bs => a == b && lpre as bs

/-- Test `startsW p s`: the string `s` starts with the string `p`. -/
def startsW (p s : String) : Bool :=
  lpre p.data s.data

/-- Drop the first `n` characters of a string (Rust `&s[n..]` after a
successful `strip_prefix` of an `n`-character literal). -/
def strDrop (s : String) (n : Nat) : String :=
  ⟨s.data.drop n⟩

/-- Take the first `n` characters of a string (a hash prefix of length `n`). -/
def strTake (s : String) (n : Nat) : String :=
  ⟨s.data.take n⟩

/-- Character length of a string. -/
def strLen (s : String) : Nat :=
  s.data.length

/-- Rust `str::trim_end`: remove trailing whitespace.  This is the body of
the source's `trim_in_place`. -/
def rtrim (s : String) : String :=
  ⟨(s.data.reverse.dropWhile Char.isWhitespace).reverse⟩

/-- Rust `str::trim`: remove leading and trailing whitespace (used by the
source's `hash` before resolution). -/
def trimB (s : String) : String :=
  ⟨((s.data.dropWhile Char.isWhitespace).reverse.dropWhile Char.isWhitespace).reverse⟩

/-- Rust `head.strip_prefix("refs/heads/")`: `some` of the remainder when the
string starts with the branch namespace, `none` otherwise. -/
def stripRH (s : String) : Option String :=
  if startsW "refs/heads/" s then some (strDrop s 11) else none

/-- Modelled from the spec: the repository handle's object database, the only
capability of the external `gix` crate the core uses.  It is a finite list of
full object ids; a reference text identifies the objects it is a prefix of. -/
structure Repository where
  objects : List String

/-- Modelled from the spec: `repo.rev_parse_single(text)` succeeds exactly
when `text` identifies exactly one object of the database, returning that
object's full id. -/
def revParseSingle (repo : Repository) (text : String) : Option String :=
  match repo.objects.filter (fun o => startsW text o) with
  | [o] => some o
  | _ => none

/-- Predicate `uniqAt repo id n`: the length-`n` prefix of `id` identifies `id`
uniquely in the object database. -/
def uniqAt (repo : Repository) (id : String) (n : Nat) : Bool :=
  decide (repo.objects.filter (fun o => startsW (strTake id n) o) = [id])

/-- Search for the shortest unique prefix of `id`, trying lengths
`n, n+1, ...` with `fuel` attempts remaining. -/
def shortenAux (repo : Repository) (id : String) : Nat → Nat → Option String
  | _, 0 => none
  | n, fuel + 1 =>
    if uniqAt repo id n then some (strTake id n)
    else shortenAux repo id (n + 1) fuel

/-- Modelled from the spec: `Id::shorten` (the source's `rel`) returns the
shortest (nonempty) prefix of `id` that is unique among all objects known to
the repository, recomputed at call time. -/
def shorten (repo : Repository) (id : String) : Option String :=
  shortenAux repo id 1 (strLen id)

/-- The source's `hash(repo, hash)`: trim surrounding whitespace, resolve to
exactly one object via `rev_parse_single` (its `unwrap` panics on failure,
modelled by `none`), then shorten the resolved id (`rel`, whose `unwrap` is
modelled the same way). -/
def hash (repo : Repository) (h : String) : Option String :=
  match revParseSingle repo (trimB h) with
  | some id => shorten repo id
  | none => none

/-- The source's `enum Head`: a branch name or a shortened detached commit. -/
inductive Head where
  | Branch : String → Head
  | Commit : String → Head
deriving DecidableEq

/-- The source's `struct Status`: interactive-rebase progress counters. -/
structure Status where
  num : String
  endNum : String
deriving DecidableEq

/-- The source's `enum Mode`: the eight operation classifications. -/
inductive Mode where
  | ApplyMailbox : Mode
  | Rebase : Mode
  | AmRbs : Mode
  | RebaseInt : Option Head → Option Status → Mode
  | Bisect : Option String → Mode
  | Merge : String → Mode
  | CherryPick : String → Mode
  | Revert : String → Mode
deriving DecidableEq

/-- Snapshot of the metadata directory reads performed by `Mode::new`:
one `Bool` per `is_file`/`is_dir` check and one `Option String` per
`read_to_string` (any read error is `none`, as `if let Ok` conflates them). -/
structure GitDir where
  rebaseApplyApplying : Bool
  rebaseApplyRebasing : Bool
  rebaseApplyDir : Bool
  rebaseMergeDir : Bool
  headName : Option String
  origHead : Option String
  msgnum : Option String
  endFile : Option String
  bisectLog : Bool
  bisectStart : Option String
  mergeHead : Option String
  cherryPickHead : Option String
  revertHead : Option String
deriving DecidableEq

/-- The `else if let Ok(head) = read_to_string("orig-head")` arm of the
branch computation in `Mode::new`: resolve orig-head as a detached commit
(`hash`'s panic on failure is `Except.error ()`); unreadable means no head. -/
def origHeadHash (repo : Repository) (origHead : Option String) : Except Unit (Option Head) :=
  match origHead with
  | some oh =>
    match hash repo oh with
    | some p => .ok (some (.Commit p))
    | none => .error ()
  | none => .ok none

/-- The `let branch = ...` if-let chain of the rebase-merge arm of
`Mode::new`: head-name readable and carrying the `refs/heads/` namespace
yields a branch (stripped, trailing whitespace removed); otherwise fall
through to orig-head. -/
def rebaseHead (repo : Repository) (headName origHead : Option String) : Except Unit (Option Head) :=
  match headName with
  | some h =>
    match stripRH h with
    | some rest => .ok (some (.Branch (rtrim rest)))
    | none => origHeadHash repo origHead
  | none => origHeadHash repo origHead

/-- The `let status = ...` block of the rebase-merge arm: a progress pair
exactly when both `msgnum` and `end` are readable, each trimmed in place. -/
def rebaseStatus (msgnum endFile : Option String) : Option Status :=
  match msgnum, endFile with
  | some n, some e => some ⟨rtrim n, rtrim e⟩
  | _, _ => none

/-- The source's `Mode::new`: the ordered marker-file checks.  Returns
`.ok none` when no check matches, `.error ()` when a `hash` unwrap panics. -/
def Mode.new (repo : Repository) (d : GitDir) : Except Unit (Option Mode) :=
  if d.rebaseApplyApplying then .ok (some .ApplyMailbox)
  else if d.rebaseApplyRebasing then .ok (some .Rebase)
  else if d.rebaseApplyDir then .ok (some .AmRbs)
  else if d.rebaseMergeDir then
    match rebaseHead repo d.headName d.origHead with
    | .error e => .error e
    | .ok branch => .ok (some (.RebaseInt branch (rebaseStatus d.msgnum d.endFile)))
  else if d.bisectLog then .ok (some (.Bisect (d.bisectStart.map rtrim)))
  else
    match d.mergeHead with
    | some sha =>
      match hash repo sha with
      | some p => .ok (some (.Merge p))
      | none => .error ()
    | none =>
      match d.cherryPickHead with
      | some sha =>
        match hash repo sha with
        | some p => .ok (some (.CherryPick p))
        | none => .error ()
      | none =>
        match d.revertHead with
        | some sha =>
          match hash repo sha with
          | some p => .ok (some (.Revert p))
          | none => .error ()
        | none => .ok none

/-- The source's `impl Display for Head`: a branch renders as its name, a detached commit
as a colon followed by the short hash. -/
def Head.render : Head → String
  | .Branch b => b
  | .Commit h => ":" ++ h

/-- The source's `impl Display for Status`: `num/end`. -/
def Status.render (s : Status) : String :=
  s.num ++ "/" ++ s.endNum

/-- The source's `impl Display for Mode`: the operation tags (colour styling excluded). -/
def Mode.render : Mode → String
  | .ApplyMailbox => "am"
  | .Rebase => "rbs"
  | .AmRbs => "am/rbs"
  | .RebaseInt b s =>
    "rbs"
      ++ (match b with | some b => " " ++ b.render | none => "")
      ++ (match s with | some s => " " ++ s.render | none => "")
  | .Bisect b =>
    "bsc" ++ (match b with | some b => " " ++ b | none => "")
  | .Merge h => "mrg :" ++ h
  | .CherryPick h => "chp :" ++ h
  | .Revert h => "rvt :" ++ h

/-- The repository handle as `fn git` uses it: the object database, the
metadata-directory snapshot, and HEAD (a symbolic branch ref name when
attached, otherwise the commit id HEAD points at, `none` modelling a read
that panics the `unwrap`s of `Head::new`). -/
structure FullRepo where
  repo : Repository
  dir : GitDir
  headRef : Option String
  headId : Option String

/-- Modelled from the spec: `referent_name().shorten()` strips the branch
namespace from a symbolic ref name. -/
def refShorten (r : String) : String :=
  match stripRH r with
  | some s => s
  | none => r

/-- The source's `Head::new`: a named branch when HEAD is symbolic, else the
shortened commit id; the `unwrap`s panic (`.error`) when HEAD is unreadable
or the id cannot be shortened. -/
def Head.new (fr : FullRepo) : Except Unit Head :=
  match fr.headRef with
  | some b => .ok (.Branch (refShorten b))
  | none =>
    match fr.headId with
    | some id =>
      match shorten fr.repo id with
      | some p => .ok (.Commit p)
      | none => .error ()
    | none => .error ()

/-- The body of `fn git` after discovery succeeded: resolve HEAD, detect the
mode, and render `(<mode >?<head>)` (colour styling excluded). -/
def gitSeg (fr : FullRepo) : Except Unit String :=
  match Head.new fr with
  | .error e => .error e
  | .ok h =>
    match Mode.new fr.repo fr.dir with
    | .error e => .error e
    | .ok mo =>
      .ok ("(" ++ (match mo with | some m => m.render ++ " " | none => "") ++ h.render ++ ")")

/-- The source's `Start`: `#` for root, `$` otherwise (styling excluded). -/
def startRender (usr : String) : String :=
  if usr = "root" then "#" else "$"

/-- The source's `main`: the starter, user and directory segments are always
printed; the git segment is printed only when `git()` returned `Ok`, which
happens exactly when repository discovery succeeded (`disc = some _`) and no
`unwrap` panicked.  The `Nat` is the process exit status: `main` returns
normally in both branches, so it is `0` whenever no panic aborted the run. -/
def mainRun (usr dirName : String) (disc : Option FullRepo) : Except Unit (String × Nat) :=
  match disc with
  | none => .ok (startRender usr ++ " " ++ usr ++ " " ++ dirName ++ " >> ", 0)
  | some fr =>
    match gitSeg fr with
    | .error e => .error e
    | .ok g => .ok (startRender usr ++ " " ++ usr ++ " " ++ dirName ++ " " ++ g ++ " >> ", 0)

/-- A metadata directory with no marker present at all. -/
def GitDir.empty : GitDir :=
  { rebaseApplyApplying := false
    rebaseApplyRebasing := false
    rebaseApplyDir := false
    rebaseMergeDir := false
    headName := none
    origHead := none
    msgnum := none
    endFile := none
    bisectLog := false
    bisectStart := none
    mergeHead := none
    cherryPickHead := none
    revertHead := none }

/-- A concrete two-object database: the ids share the prefix `aa`, so the
shortest unique prefix of `aabbccdd` is `aab`. -/
def repo0 : Repository :=
  ⟨["aabbccdd", "aaccddee"]⟩

/-- The condition of each check of `Mode::new`, in source order (1–8); the
earliest one that holds, or `none` when none does.  Conditions 6–8 are the
existence (readability) of the marker file, as in the source's `if let`. -/
def firstCheck (d : GitDir) : Option Nat :=
  if d.rebaseApplyApplying then some 1
  else if d.rebaseApplyRebasing then some 2
  else if d.rebaseApplyDir then some 3
  else if d.rebaseMergeDir then some 4
  else if d.bisectLog then some 5
  else if d.mergeHead.isSome then some 6
  else if d.cherryPickHead.isSome then some 7
  else if d.revertHead.isSome then some 8
  else none

/-- The position (1–8) of each `Mode` variant in the check order. -/
def tagIndex : Mode → Nat
  | .ApplyMailbox => 1
  | .Rebase => 2
  | .AmRbs => 3
  | .RebaseInt _ _ => 4
  | .Bisect _ => 5
  | .Merge _ => 6
  | .CherryPick _ => 7
  | .Revert _ => 8

/-- Only `rebase-apply/applying` present. -/
def onlyApplying : GitDir := { GitDir.empty with rebaseApplyApplying := true }

/-- Only `rebase-apply/rebasing` present. -/
def onlyRebasing : GitDir := { GitDir.empty with rebaseApplyRebasing := true }

/-- Only the `rebase-apply` directory present. -/
def onlyAmDir : GitDir := { GitDir.empty with rebaseApplyDir := true }

/-- Only the `rebase-merge` directory present. -/
def onlyRebaseMerge : GitDir := { GitDir.empty with rebaseMergeDir := true }

/-- Only `BISECT_LOG` present. -/
def onlyBisect : GitDir := { GitDir.empty with bisectLog := true }

/-- Only `MERGE_HEAD` present, with content `c`. -/
def onlyMerge (c : String) : GitDir := { GitDir.empty with mergeHead := some c }

/-- Only `CHERRY_PICK_HEAD` present, with content `c`. -/
def onlyCherry (c : String) : GitDir := { GitDir.empty with cherryPickHead := some c }

/-- Only `REVERT_HEAD` present, with content `c`. -/
def onlyRevert (c : String) : GitDir := { GitDir.empty with revertHead := some c }

/-- A rebase-merge state whose `head-name` is readable but carries no
`refs/heads/` namespace, while `orig-head` holds a resolvable reference. -/
def dC3 : GitDir :=
  { GitDir.empty with
    rebaseMergeDir := true
    headName := some "detached\n"
    origHead := some " aabbccdd\n" }

/-- Both the step-1 and the step-6 markers present at once. -/
def dBoth : GitDir :=
  { GitDir.empty with rebaseApplyApplying := true, mergeHead := some "aabbccdd" }

end Maysh


namespace Maysh

/-- C9: every rendering of a commit hash is preceded by a colon — a detached
head renders as `:<hash>`, the Merge/CherryPick/Revert tags render as
`mrg :<hash>`, `chp :<hash>`, `rvt :<hash>` — while a branch-named head
renders as the bare branch name, with no colon prepended. -/
theorem render_hash_colon (h b : String) :
    Head.render (.Commit h) = ":" ++ h ∧
    Mode.render (.Merge h) = "mrg :" ++ h ∧
    Mode.render (.CherryPick h) = "chp :" ++ h ∧
    Mode.render (.Revert h) = "rvt :" ++ h ∧
    Head.render (.Branch b) = b :=
  ⟨rfl, rfl, rfl, rfl, rfl⟩

/-- C6: when no repository is discovered, the rendered prompt consists of the
starter, user and directory segments followed by `>> `, with no git segment,
and the process exit status is 0. -/
theorem main_no_repo (usr dirName : String) :
    mainRun usr dirName none
      = .ok (startRender usr ++ " " ++ usr ++ " " ++ dirName ++ " >> ", 0) :=
  rfl

/-- C2: each of the eight marker configurations in isolation yields the
corresponding `Mode` variant with its auxiliary data (absent head/progress
for a bare rebase-merge directory, absent start branch for a bare bisect
log, the resolved short hash for the three head-marker files), and a state
with no marker at all yields `.ok none`, not an error. -/
theorem detect_isolated_markers (repo : Repository) (c p : String)
    (hres : hash repo c = some p) :
    Mode.new repo onlyApplying = .ok (some .ApplyMailbox) ∧
    Mode.new repo onlyRebasing = .ok (some .Rebase) ∧
    Mode.new repo onlyAmDir = .ok (some .AmRbs) ∧
    Mode.new repo onlyRebaseMerge = .ok (some (.RebaseInt none none)) ∧
    Mode.new repo onlyBisect = .ok (some (.Bisect none)) ∧
    Mode.new repo (onlyMerge c) = .ok (some (.Merge p)) ∧
    Mode.new repo (onlyCherry c) = .ok (some (.CherryPick p)) ∧
    Mode.new repo (onlyRevert c) = .ok (some (.Revert p)) ∧
    Mode.new repo GitDir.empty = .ok none := by
  refine ⟨?_, ?_, ?_, ?_, ?_, ?_, ?_, ?_, ?_⟩ <;>
    simp [Mode.new, onlyApplying, onlyRebasing, onlyAmDir, onlyRebaseMerge, onlyBisect,
      onlyMerge, onlyCherry, onlyRevert, GitDir.empty, rebaseHead, origHeadHash,
      rebaseStatus, hres]

/-- Witness for C2 at the concrete database `repo0`. -/
theorem detect_isolated_markers_witness :
    Mode.new repo0 (onlyMerge " aabbccdd\n") = .ok (some (.Merge "aab")) ∧
    Mode.new repo0 GitDir.empty = .ok none :=
  ⟨(detect_isolated_markers repo0 " aabbccdd\n" "aab" (by decide)).2.2.2.2.2.1,
   (detect_isolated_markers repo0 " aabbccdd\n" "aab" (by decide)).2.2.2.2.2.2.2.2⟩

/-- C4: under the rebase-merge check, the progress pair is present exactly
when both the `msgnum` file and the `end` file are readable; with only one
of the two readable it is absent, never half-filled. -/
theorem rebase_progress_all_or_nothing (repo : Repository) (d : GitDir)
    (h1 : d.rebaseApplyApplying = false) (h2 : d.rebaseApplyRebasing = false)
    (h3 : d.rebaseApplyDir = false) (hm : d.rebaseMergeDir = true) :
    ∀ b st, Mode.new repo d = .ok (some (.RebaseInt b st)) →
      (st.isSome ↔ d.msgnum.isSome ∧ d.endFile.isSome) := by
  intro b st hmode
  unfold Mode.new at hmode
  rw [h1, h2, h3, hm] at hmode
  simp only [Bool.false_eq_true, if_false, if_true] at hmode
  cases hr : rebaseHead repo d.headName d.origHead with
  | error e => rw [hr] at hmode; cases hmode
  | ok branch =>
    rw [hr] at hmode
    simp only [Except.ok.injEq, Option.some.injEq, Mode.RebaseInt.injEq] at hmode
    obtain ⟨-, hst⟩ := hmode
    subst hst
    cases hn : d.msgnum <;> cases he : d.endFile <;> simp [rebaseStatus]

/-- Witness for C4: only `msgnum` readable, progress absent. -/
theorem rebase_progress_all_or_nothing_witness :
    ((none : Option Status).isSome ↔
      (some "2\n" : Option String).isSome ∧ (none : Option String).isSome) :=
  rebase_progress_all_or_nothing repo0
    { GitDir.empty with rebaseMergeDir := true, msgnum := some "2\n" }
    rfl rfl rfl rfl none none (by decide)

end Maysh

namespace Maysh

/-- C5: once the first five checks have failed, a readable `MERGE_HEAD`,
`CHERRY_PICK_HEAD` or `REVERT_HEAD` whose content does not resolve to
exactly one object aborts the invocation (`.error ()`), never skipping to a
later check; an absent marker instead just moves detection on, down to
`.ok none` when nothing is left. -/
theorem hash_failure_fatal (repo : Repository) (d : GitDir)
    (h1 : d.rebaseApplyApplying = false) (h2 : d.rebaseApplyRebasing = false)
    (h3 : d.rebaseApplyDir = false) (h4 : d.rebaseMergeDir = false)
    (h5 : d.bisectLog = false) :
    (∀ c, d.mergeHead = some c → hash repo c = none → Mode.new repo d = .error ()) ∧
    (d.mergeHead = none → ∀ c, d.cherryPickHead = some c → hash repo c = none →
      Mode.new repo d = .error ()) ∧
    (d.mergeHead = none → d.cherryPickHead = none → ∀ c, d.revertHead = some c →
      hash repo c = none → Mode.new repo d = .error ()) ∧
    (d.mergeHead = none → d.cherryPickHead = none → d.revertHead = none →
      Mode.new repo d = .ok none) := by
  refine ⟨?_, ?_, ?_, ?_⟩ <;> intros <;> simp_all [Mode.new]

/-- Witness for C5: `MERGE_HEAD` holds the ambiguous text `aa` while a
resolvable `CHERRY_PICK_HEAD` is also present; the invocation aborts
instead of skipping to the cherry-pick check. -/
theorem hash_failure_fatal_witness :
    Mode.new repo0
      { GitDir.empty with mergeHead := some "aa", cherryPickHead := some "aabbccdd" }
      = .error () :=
  (hash_failure_fatal repo0
      { GitDir.empty with mergeHead := some "aa", cherryPickHead := some "aabbccdd" }
      rfl rfl rfl rfl rfl).1 "aa" rfl (by decide)

/-- C10: inside the rebase-merge check, too, hash-resolution failure is
fatal: when `head-name` is not usable (unreadable or not under
`refs/heads/`) and `orig-head` is readable but does not resolve to exactly
one object, detection aborts instead of returning `RebaseInt` with an
absent head. -/
theorem rebase_orig_head_failure_fatal (repo : Repository) (d : GitDir) (c : String)
    (h1 : d.rebaseApplyApplying = false) (h2 : d.rebaseApplyRebasing = false)
    (h3 : d.rebaseApplyDir = false) (hm : d.rebaseMergeDir = true)
    (hn : ∀ h, d.headName = some h → startsW "refs/heads/" h = false)
    (ho : d.origHead = some c) (hh : hash repo c = none) :
    Mode.new repo d = .error () := by
  unfold Mode.new
  rw [h1, h2, h3, hm]
  simp only [Bool.false_eq_true, if_false, if_true]
  have hfall : rebaseHead repo d.headName d.origHead = origHeadHash repo d.origHead := by
    cases hhead : d.headName with
    | none => simp [rebaseHead]
    | some h => simp [rebaseHead, stripRH, hn h hhead]
  rw [hfall, ho]
  simp [origHeadHash, hh]

/-- Witness for C10: readable unprefixed `head-name`, unresolvable
`orig-head`. -/
theorem rebase_orig_head_failure_fatal_witness :
    Mode.new repo0
      { GitDir.empty with
        rebaseMergeDir := true
        headName := some "aabbccdd\n"
        origHead := some "zz" }
      = .error () :=
  rebase_orig_head_failure_fatal repo0
    { GitDir.empty with
      rebaseMergeDir := true
      headName := some "aabbccdd\n"
      origHead := some "zz" }
    "zz" rfl rfl rfl rfl
    (fun h hh => by cases hh; decide) rfl (by decide)

/-- C3 counterexample: in the state `dC3` the `head-name` file is readable
(content `"detached\n"`, carrying no `refs/heads/` namespace), yet `detect`
consults `orig-head` and returns its resolved detached commit, not the
head-name content the claim mandates. -/
theorem rebase_head_name_counterexample :
    dC3.headName = some "detached\n" ∧
    Mode.new repo0 dC3 = .ok (some (.RebaseInt (some (.Commit "aab")) none)) ∧
    Head.Commit "aab" ≠ Head.Branch (rtrim (strDrop "detached\n" 11)) := by
  refine ⟨rfl, by decide, by decide⟩

/-- C3 amended: under the rebase-merge check, the head is taken from
`head-name` (namespace stripped, trailing whitespace trimmed) exactly when
that file is readable *and* its content starts with `refs/heads/`;
otherwise — unreadable or unprefixed — detection falls back to `orig-head`,
resolved as a detached commit (fatal on resolution failure), and the head
is absent exactly when the fallback finds `orig-head` unreadable. -/
theorem rebase_head_derivation (repo : Repository) (d : GitDir)
    (h1 : d.rebaseApplyApplying = false) (h2 : d.rebaseApplyRebasing = false)
    (h3 : d.rebaseApplyDir = false) (hm : d.rebaseMergeDir = true) :
    (Mode.new repo d = match rebaseHead repo d.headName d.origHead with
      | .error e => .error e
      | .ok b => .ok (some (.RebaseInt b (rebaseStatus d.msgnum d.endFile)))) ∧
    (∀ h, d.headName = some h → startsW "refs/heads/" h = true →
      rebaseHead repo d.headName d.origHead = .ok (some (.Branch (rtrim (strDrop h 11))))) ∧
    (∀ h, d.headName = some h → startsW "refs/heads/" h = false →
      rebaseHead repo d.headName d.origHead = origHeadHash repo d.origHead) ∧
    (d.headName = none → rebaseHead repo d.headName d.origHead = origHeadHash repo d.origHead) ∧
    (d.origHead = none → origHeadHash repo d.origHead = .ok none) ∧
    (∀ c, d.origHead = some c → origHeadHash repo d.origHead =
      match hash repo c with
      | some p => .ok (some (.Commit p))
      | none => .error ()) := by
  refine ⟨?_, ?_, ?_, ?_, ?_, ?_⟩
  · unfold Mode.new
    rw [h1, h2, h3, hm]
    simp only [Bool.false_eq_true, if_false, if_true]
  · intro h hh hpre
    rw [hh]
    simp [rebaseHead, stripRH, hpre]
  · intro h hh hpre
    rw [hh]
    simp [rebaseHead, stripRH, hpre]
  · intro hh
    rw [hh]
    simp [rebaseHead]
  · intro hh
    rw [hh]
    simp [origHeadHash]
  · intro c hc
    rw [hc]
    simp [origHeadHash]

/-- Witness for C3 (amended) at a prefixed head-name. -/
theorem rebase_head_derivation_witness :
    rebaseHead repo0 (some "refs/heads/main\n") none
      = .ok (some (.Branch (rtrim (strDrop "refs/heads/main\n" 11)))) :=
  (rebase_head_derivation repo0
      { GitDir.empty with rebaseMergeDir := true, headName := some "refs/heads/main\n" }
      rfl rfl rfl rfl).2.1 "refs/heads/main\n" rfl (by decide)

end Maysh

namespace Maysh

/-- C1: the checks of `Mode::new` run in a fixed order and the first match
wins — whenever detection returns an operation, its variant sits at exactly
the earliest position of the check order whose condition holds, and in
particular a present `rebase-apply/applying` marker forces `ApplyMailbox`
(so never `Merge`, whatever else — e.g. `MERGE_HEAD` — coexists on disk). -/
theorem detect_first_match (repo : Repository) (d : GitDir) (m : Mode)
    (hm : Mode.new repo d = .ok (some m)) :
    firstCheck d = some (tagIndex m) ∧
    (d.rebaseApplyApplying = true → m = .ApplyMailbox) := by
  unfold Mode.new at hm
  split_ifs at hm with h1 h2 h3 h4 h5
  all_goals repeat' split at hm
  all_goals simp_all [firstCheck, tagIndex]
  all_goals rw [← hm]

/-- Witness for C1: both the step-1 marker and `MERGE_HEAD` present. -/
theorem detect_first_match_witness :
    firstCheck dBoth = some (tagIndex Mode.ApplyMailbox) ∧
    (dBoth.rebaseApplyApplying = true → Mode.ApplyMailbox = .ApplyMailbox) :=
  detect_first_match repo0 dBoth .ApplyMailbox (by decide)

end Maysh

namespace Maysh

/-- Any initial segment of a list is an `lpre` of it. -/
theorem lpre_take (l : List Char) : ∀ n, lpre (l.take n) l = true := by
  induction l with
  | nil => intro n; cases n <;> rfl
  | cons a l ih =>
    intro n
    cases n with
    | zero => rfl
    | succ n => simp [lpre, ih]

/-- Inversion of a successful `rev_parse_single`: the text matched exactly
the singleton of the returned id. -/
theorem revParseSingle_some (repo : Repository) (t id : String)
    (h : revParseSingle repo t = some id) :
    repo.objects.filter (fun o => startsW t o) = [id] := by
  unfold revParseSingle at h
  split at h
  · rename_i o heq
    injection h with h'
    rw [h'] at heq
    exact heq
  · exact Option.noConfusion h

/-- Conversely, a singleton filter makes `rev_parse_single` succeed. -/
theorem revParseSingle_of_filter (repo : Repository) (t id : String)
    (h : repo.objects.filter (fun o => startsW t o) = [id]) :
    revParseSingle repo t = some id := by
  unfold revParseSingle
  rw [h]

/-- When the text does not match exactly one object, `rev_parse_single`
fails. -/
theorem revParseSingle_none (repo : Repository) (t : String)
    (h : (repo.objects.filter (fun o => startsW t o)).length ≠ 1) :
    revParseSingle repo t = none := by
  unfold revParseSingle
  split
  · rename_i o heq
    exact absurd (by rw [heq]; rfl) h
  · rfl

/-- Characterization of the shortening search: a success is the prefix at
the first unique length at or after the starting point. -/
theorem shortenAux_some (repo : Repository) (id : String) :
    ∀ fuel n p, shortenAux repo id n fuel = some p →
      ∃ k, n ≤ k ∧ p = strTake id k ∧ uniqAt repo id k = true ∧
        ∀ m, n ≤ m → m < k → uniqAt repo id m = false := by
  intro fuel
  induction fuel with
  | zero => intro n p h; exact Option.noConfusion h
  | succ fuel ih =>
    intro n p h
    simp only [shortenAux] at h
    by_cases hu : uniqAt repo id n
    · rw [if_pos hu] at h
      injection h with h'
      exact ⟨n, Nat.le_refl n, h'.symm, hu, fun m hm1 hm2 => absurd hm1 (by omega)⟩
    · rw [if_neg hu] at h
      obtain ⟨k, hk1, hk2, hk3, hk4⟩ := ih (n + 1) p h
      refine ⟨k, by omega, hk2, hk3, ?_⟩
      intro m hm1 hm2
      rcases Nat.eq_or_lt_of_le hm1 with he | hl
      · rw [← he]
        exact Bool.eq_false_iff.mpr hu
      · exact hk4 m hl hm2

/-- Characterization of `shorten`: the returned prefix has the first unique
length at or after 1. -/
theorem shorten_some (repo : Repository) (id p : String) (h : shorten repo id = some p) :
    ∃ k, 1 ≤ k ∧ p = strTake id k ∧ uniqAt repo id k = true ∧
      ∀ m, 1 ≤ m → m < k → uniqAt repo id m = false :=
  shortenAux_some repo id (strLen id) 1 p h

/-- A `dropWhile` leaves a list alone when no element satisfies the predicate. -/
theorem dropWhile_eq_self (p : Char → Bool) (l : List Char)
    (h : ∀ c ∈ l, p c = false) : l.dropWhile p = l := by
  cases l with
  | nil => rfl
  | cons a l => simp [List.dropWhile, h a (List.mem_cons_self a l)]

/-- Trimming a whitespace-free string is the identity. -/
theorem trimB_eq_self (s : String) (h : ∀ c ∈ s.data, c.isWhitespace = false) :
    trimB s = s := by
  unfold trimB
  rw [dropWhile_eq_self _ _ h,
    dropWhile_eq_self _ _ (fun c hc => h c (List.mem_reverse.mp hc)),
    List.reverse_reverse]

/-- A take-prefix of a string `lpre`-starts it. -/
theorem startsW_strTake (id : String) (k : Nat) : startsW (strTake id k) id = true :=
  lpre_take id.data k

end Maysh

namespace Maysh

/-- C7: `hash` depends only on the whitespace-trimmed text; it fails
whenever the trimmed text does not match exactly one object; and on success
it returns a prefix of the resolved id that is unique in the object
database, while every shorter (nonempty) prefix of that id is not. -/
theorem hash_shortest_unique (repo : Repository) (text : String) :
    (∀ t2, trimB text = trimB t2 → hash repo text = hash repo t2) ∧
    ((repo.objects.filter (fun o => startsW (trimB text) o)).length ≠ 1 →
      hash repo text = none) ∧
    (∀ p, hash repo text = some p →
      ∃ id, revParseSingle repo (trimB text) = some id ∧
        startsW p id = true ∧
        repo.objects.filter (fun o => startsW p o) = [id] ∧
        ∀ n, 1 ≤ n → n < strLen p →
          repo.objects.filter (fun o => startsW (strTake id n) o) ≠ [id]) := by
  refine ⟨?_, ?_, ?_⟩
  · intro t2 ht
    unfold hash
    rw [ht]
  · intro hlen
    unfold hash
    rw [revParseSingle_none repo (trimB text) hlen]
  · intro p hp
    unfold hash at hp
    cases hrev : revParseSingle repo (trimB text) with
    | none => rw [hrev] at hp; simp at hp
    | some id =>
      rw [hrev] at hp
      obtain ⟨k, hk1, hk2, hk3, hk4⟩ := shorten_some repo id p hp
      refine ⟨id, rfl, ?_, ?_, ?_⟩
      · rw [hk2]
        exact startsW_strTake id k
      · rw [hk2]
        exact of_decide_eq_true hk3
      · intro n hn1 hn2 hfn
        have hpk : strLen p ≤ k := by
          rw [hk2]
          unfold strLen strTake
          rw [List.length_take]
          exact Nat.min_le_left _ _
        have hfalse := hk4 n hn1 (by omega)
        exact (of_decide_eq_false hfalse) hfn

/-- Witness for C7: trimming invariance and failure on the ambiguous text
`aa` of the two-object database `repo0`. -/
theorem hash_shortest_unique_witness :
    hash repo0 " aabbccdd\n" = hash repo0 "aabbccdd\t" ∧ hash repo0 "aa" = none :=
  ⟨(hash_shortest_unique repo0 " aabbccdd\n").1 "aabbccdd\t" (by decide),
   (hash_shortest_unique repo0 "aa").2.1 (by decide)⟩

/-- C8: on an object database whose ids contain no whitespace, `hash` is
idempotent — resolving the short prefix it returned yields the same prefix
again, through the same underlying object id. -/
theorem hash_idempotent (repo : Repository) (text p : String)
    (hwf : ∀ o ∈ repo.objects, ∀ c ∈ o.data, c.isWhitespace = false)
    (hp : hash repo text = some p) :
    hash repo p = some p ∧
    ∃ id, revParseSingle repo (trimB text) = some id ∧
      revParseSingle repo (trimB p) = some id := by
  unfold hash at hp
  cases hrev : revParseSingle repo (trimB text) with
  | none => rw [hrev] at hp; simp at hp
  | some id =>
    rw [hrev] at hp
    have hfil : repo.objects.filter (fun o => startsW (trimB text) o) = [id] :=
      revParseSingle_some repo (trimB text) id hrev
    have hid_mem : id ∈ repo.objects := by
      have hmem : id ∈ repo.objects.filter (fun o => startsW (trimB text) o) := by
        rw [hfil]
        exact List.mem_singleton.mpr rfl
      exact List.mem_of_mem_filter hmem
    obtain ⟨k, hk1, hk2, hk3, hk4⟩ := shorten_some repo id p hp
    have hp_nows : ∀ c ∈ p.data, c.isWhitespace = false := by
      intro c hc
      apply hwf id hid_mem
      rw [hk2] at hc
      exact List.take_subset _ _ hc
    have htrim : trimB p = p := trimB_eq_self p hp_nows
    have hfp : repo.objects.filter (fun o => startsW p o) = [id] := by
      rw [hk2]
      exact of_decide_eq_true hk3
    have hrp : revParseSingle repo p = some id := revParseSingle_of_filter repo p id hfp
    refine ⟨?_, id, rfl, ?_⟩
    · unfold hash
      rw [htrim, hrp]
      exact hp
    · rw [htrim]
      exact hrp

/-- Witness for C8 at `repo0`: re-resolving the returned prefix `aab`. -/
theorem hash_idempotent_witness : hash repo0 "aab" = some "aab" :=
  (hash_idempotent repo0 " aabbccdd\n" "aab" (by decide) (by decide)).1

end Maysh
